import Mathlib

/-
Shallow embedding of the R-Car VSP1 display list manager (vsp1_dl.c).

Pointers to heap objects become Lean values; the intrusive linked lists
(free pool, fragments, chain, gc_fragments) become Lean lists holding the
values in list order; NULL pointers become Option.none.  The hardware
registers are external to the file: the single bit read by
vsp1_dl_list_hw_update_pending (UPD in headerless mode, UPDHDR in header
mode) is passed in as a Boolean parameter updBit, and the register writes
performed by vsp1_dl_list_hw_enqueue are returned as an explicit event
trace.  The spinlock serialises every operation, so each C function
becomes a pure state transformer on the manager value.
-/

namespace Vsp1

/-- VSP1_DL_NUM_ENTRIES: capacity of the primary body, in entries. -/
def VSP1_DL_NUM_ENTRIES : Nat := 256

/-- VSP1_DLH_INT_ENABLE = 1 << 1. -/
def VSP1_DLH_INT_ENABLE : Nat := 2

/-- VSP1_DLH_AUTO_START = 1 << 0. -/
def VSP1_DLH_AUTO_START : Nat := 1

/-- sizeof(struct vsp1_dl_header_list) = sizeof(struct vsp1_dl_entry) = 8 bytes. -/
def HEADER_LIST_SIZE : Nat := 8

/-- Number of slots of the lists array of struct vsp1_dl_header (lists[8]). -/
def VSP1_DL_HEADER_NUM_LISTS : Nat := 8

/-- struct vsp1_dl_entry: one register write (address, data). -/
structure vsp1_dl_entry where
  addr : Nat
  data : Nat
deriving DecidableEq

/-- struct vsp1_dl_header_list: one body descriptor of the header. -/
structure vsp1_dl_header_list where
  num_bytes : Nat
  addr : Nat
deriving DecidableEq

/-- struct vsp1_dl_header.  The fixed lists[8] array is modelled as a total
function from slot index to descriptor so that the pointer walk of
vsp1_dl_list_fill_header is an explicit index computation. -/
structure vsp1_dl_header where
  num_lists : Nat
  lists : Nat → vsp1_dl_header_list
  next_header : Nat
  flags : Nat

/-- struct vsp1_dl_body: entry memory (a total function, since contents
persist across resets), its device address and size, and the count of
entries written so far. -/
structure vsp1_dl_body where
  entries : Nat → vsp1_dl_entry
  dma : Nat
  size : Nat
  num_entries : Nat

/-- struct vsp1_dl_list.  chain holds the chained children of a head list
in list order (the intrusive chain node of the C struct).  header is kept
as a plain field: in headerless mode it is NULL in C and never
dereferenced, here it keeps its zero-initialised value and is never read. -/
inductive vsp1_dl_list : Type where
  | mk : (dma : Nat) → (header : vsp1_dl_header) → (body0 : vsp1_dl_body) →
      (fragments : List vsp1_dl_body) → (has_chain : Bool) →
      (chain : List vsp1_dl_list) → (internal : Bool) → vsp1_dl_list

def vsp1_dl_list.dma : vsp1_dl_list → Nat
  | .mk d _ _ _ _ _ _ => d

def vsp1_dl_list.header : vsp1_dl_list → vsp1_dl_header
  | .mk _ h _ _ _ _ _ => h

def vsp1_dl_list.body0 : vsp1_dl_list → vsp1_dl_body
  | .mk _ _ b _ _ _ _ => b

def vsp1_dl_list.fragments : vsp1_dl_list → List vsp1_dl_body
  | .mk _ _ _ f _ _ _ => f

def vsp1_dl_list.has_chain : vsp1_dl_list → Bool
  | .mk _ _ _ _ hc _ _ => hc

def vsp1_dl_list.chain : vsp1_dl_list → List vsp1_dl_list
  | .mk _ _ _ _ _ c _ => c

def vsp1_dl_list.internal : vsp1_dl_list → Bool
  | .mk _ _ _ _ _ _ i => i

/-- enum vsp1_dl_mode. -/
inductive vsp1_dl_mode where
  | HEADER
  | HEADERLESS
deriving DecidableEq

/-- struct vsp1_dl_manager: configuration plus the state protected by the
lock (free pool, the three pipeline slots, deferred-free fragments). -/
structure vsp1_dl_manager where
  mode : vsp1_dl_mode
  singleshot : Bool
  free : List vsp1_dl_list
  active : Option vsp1_dl_list
  queued : Option vsp1_dl_list
  pending : Option vsp1_dl_list
  gc_fragments : List vsp1_dl_body

/-- vsp1_dl_fragment_write: append one (reg, data) entry at the current
write position and advance it. -/
def vsp1_dl_fragment_write (dlb : vsp1_dl_body) (reg data : Nat) : vsp1_dl_body :=
  { dlb with
      entries := Function.update dlb.entries dlb.num_entries ⟨reg, data⟩,
      num_entries := dlb.num_entries + 1 }

/-- vsp1_dl_list_write: delegate to the primary body. -/
def vsp1_dl_list_write (dl : vsp1_dl_list) (reg data : Nat) : vsp1_dl_list :=
  .mk dl.dma dl.header (vsp1_dl_fragment_write dl.body0 reg data)
    dl.fragments dl.has_chain dl.chain dl.internal

/-- vsp1_dl_list_alloc: build one zero-initialised display list (kzalloc)
whose primary body has the given device address bodyDma.  In header mode
the header sits right after the 256 body entries (dl->dma = body dma +
offset) and its lists[0].addr is pre-populated with the body address; in
headerless mode header and dma keep their zero initialisation. -/
def vsp1_dl_list_alloc (mode : vsp1_dl_mode) (bodyDma : Nat) : vsp1_dl_list :=
  let header_size : Nat :=
    if mode = vsp1_dl_mode.HEADER then 80 else 0
  let body : vsp1_dl_body :=
    { entries := fun _ => ⟨0, 0⟩, dma := bodyDma,
      size := VSP1_DL_NUM_ENTRIES * HEADER_LIST_SIZE + header_size,
      num_entries := 0 }
  let zeroHeader : vsp1_dl_header :=
    { num_lists := 0, lists := fun _ => ⟨0, 0⟩, next_header := 0, flags := 0 }
  if mode = vsp1_dl_mode.HEADER then
    let header_offset := VSP1_DL_NUM_ENTRIES * HEADER_LIST_SIZE
    let header :=
      { zeroHeader with
          lists := Function.update zeroHeader.lists 0 ⟨0, bodyDma⟩ }
    .mk (bodyDma + header_offset) header body [] false [] false
  else
    .mk 0 zeroHeader body [] false [] false

/-- vsp1_dl_list_get: pop the first free list, re-initialising its chain
node (INIT_LIST_HEAD(dl.chain)); none when the pool is exhausted. -/
def vsp1_dl_list_get (dlm : vsp1_dl_manager) :
    Option vsp1_dl_list × vsp1_dl_manager :=
  match dlm.free with
  | [] => (none, dlm)
  | dl :: rest =>
      (some (.mk dl.dma dl.header dl.body0 dl.fragments dl.has_chain [] dl.internal),
       { dlm with free := rest })

/-- Value a display list carries when __vsp1_dl_list_put adds it to the
free pool: chain flag cleared, fragments spliced away, primary entry
count reset (entry memory, header and chain node are left as they are). -/
def resetList (dl : vsp1_dl_list) : vsp1_dl_list :=
  .mk dl.dma dl.header { dl.body0 with num_entries := 0 }
    [] false dl.chain dl.internal

mutual

/-- Model of __vsp1_dl_list_put: release a (possibly NULL) display list
back to the free pool, recursively releasing chained children first,
splicing fragments onto the deferred-free list, and resetting the primary
entry count. -/
def vsp1_dl_list_put_locked (dlm : vsp1_dl_manager) :
    Option vsp1_dl_list → vsp1_dl_manager
  | none => dlm
  | some dl =>
      let m1 := if dl.has_chain then putChainChildren dlm dl.chain else dlm
      let m2 :=
        if dl.fragments.isEmpty then m1
        else { m1 with gc_fragments := dl.fragments ++ m1.gc_fragments }
      { m2 with free := m2.free ++ [resetList dl] }
termination_by o => sizeOf o
decreasing_by
  cases dl
  simp [vsp1_dl_list.chain]
  omega

/-- The list_for_each_entry loop of __vsp1_dl_list_put over the chained
children, in list order. -/
def putChainChildren (dlm : vsp1_dl_manager) :
    List vsp1_dl_list → vsp1_dl_manager
  | [] => dlm
  | c :: rest => putChainChildren (vsp1_dl_list_put_locked dlm (some c)) rest
termination_by l => sizeOf l
decreasing_by
  all_goals have hpos : 0 < sizeOf rest := by cases rest <;> simp_arith
  all_goals simp
  all_goals omega

end

/-- vsp1_dl_list_put: NULL check, then release under the lock. -/
def vsp1_dl_list_put (dlm : vsp1_dl_manager) (dl : Option vsp1_dl_list) :
    vsp1_dl_manager :=
  match dl with
  | none => dlm
  | some dl => vsp1_dl_list_put_locked dlm (some dl)

/-- Value returned for -EINVAL. -/
def EINVAL : Int := 22

/-- vsp1_dl_list_add_fragment: reject in headerless mode with -EINVAL,
otherwise append the body at the end of the fragment sequence.  mode
stands for dl->dlm->mode. -/
def vsp1_dl_list_add_fragment (mode : vsp1_dl_mode) (dl : vsp1_dl_list)
    (dlb : vsp1_dl_body) : Int × vsp1_dl_list :=
  if mode ≠ vsp1_dl_mode.HEADER then (-EINVAL, dl)
  else
    (0, .mk dl.dma dl.header dl.body0 (dl.fragments ++ [dlb])
      dl.has_chain dl.chain dl.internal)

/-- vsp1_dl_list_add_chain: reject in headerless mode with -EINVAL,
otherwise set the chain flag of the head and append the list at the end
of the chain.  mode stands for head->dlm->mode. -/
def vsp1_dl_list_add_chain (mode : vsp1_dl_mode) (head : vsp1_dl_list)
    (dl : vsp1_dl_list) : Int × vsp1_dl_list :=
  if mode ≠ vsp1_dl_mode.HEADER then (-EINVAL, head)
  else
    (0, .mk head.dma head.header head.body0 head.fragments true
      (head.chain ++ [dl]) head.internal)

/-- The fragment loop of vsp1_dl_list_fill_header: starting from
descriptor slot n (hdr currently points at slot n) and a running count n,
for each fragment advance the pointer (hdr++) and write its address and
byte length, counting it.  Returns the written slots and the count. -/
def fillFragmentDescs (lists : Nat → vsp1_dl_header_list) (n : Nat) :
    List vsp1_dl_body → (Nat → vsp1_dl_header_list) × Nat
  | [] => (lists, n)
  | dlb :: rest =>
      fillFragmentDescs
        (Function.update lists (n + 1)
          ⟨dlb.num_entries * HEADER_LIST_SIZE, dlb.dma⟩)
        (n + 1) rest

/-- vsp1_dl_list_fill_header.  singleshot stands for dl->dlm->singleshot;
inChain embeds the C test !list_empty(dl->chain) (the list is linked in a
chain) and nextDma embeds list_next_entry(dl, chain)->dma, both supplied
by the caller from the actual chain structure. -/
def vsp1_dl_list_fill_header (singleshot : Bool) (dl : vsp1_dl_list)
    (inChain : Bool) (nextDma : Nat) (is_last : Bool) : vsp1_dl_list :=
  let h0 := dl.header
  let h1 :=
    { h0 with
        lists := Function.update h0.lists 0
          { (h0.lists 0) with
              num_bytes := dl.body0.num_entries * HEADER_LIST_SIZE } }
  let filled := fillFragmentDescs h1.lists 0 dl.fragments
  let h2 := { h1 with lists := filled.1, num_lists := filled.2 }
  let h3 :=
    if inChain ∧ ¬is_last then
      { h2 with
          next_header := nextDma,
          flags := VSP1_DLH_AUTO_START }
    else if ¬singleshot then
      { h2 with
          next_header := dl.dma,
          flags := VSP1_DLH_INT_ENABLE ||| VSP1_DLH_AUTO_START }
    else
      { h2 with flags := VSP1_DLH_INT_ENABLE }
  .mk dl.dma h3 dl.body0 dl.fragments dl.has_chain dl.chain dl.internal

/-- vsp1_dl_list_hw_update_pending: false when nothing is queued,
otherwise the value of the hardware bit (UPD in headerless mode, UPDHDR
in header mode), passed in as updBit. -/
def vsp1_dl_list_hw_update_pending (dlm : vsp1_dl_manager) (updBit : Bool) :
    Bool :=
  match dlm.queued with
  | none => false
  | some _ => updBit

/-- One hardware-programming event emitted by vsp1_dl_list_hw_enqueue:
either the headerless body address and byte size written with the UPD
bit, or the header address written to VI6_DL_HDR_ADDR. -/
inductive HwProgram where
  | headerless : (bodyDma : Nat) → (bodySizeBytes : Nat) → HwProgram
  | header : (dma : Nat) → HwProgram
deriving DecidableEq

/-- vsp1_dl_list_hw_enqueue, as the register-write event it performs. -/
def vsp1_dl_list_hw_enqueue (mode : vsp1_dl_mode) (dl : vsp1_dl_list) :
    HwProgram :=
  match mode with
  | .HEADERLESS =>
      .headerless dl.body0.dma (dl.body0.num_entries * HEADER_LIST_SIZE)
  | .HEADER => .header dl.dma

/-- The list_for_each_entry loop of vsp1_dl_list_commit over the chained
children: each child is filled with is_last := list_is_last(child) (no
successor in the chain) and, for a non-last child, the next child as its
forward link; list_next_entry of the last child is the head itself, whose
address headDma is passed for fidelity (it is unused when is_last). -/
def commitFillChildren (singleshot : Bool) (headDma : Nat) :
    List vsp1_dl_list → List vsp1_dl_list
  | [] => []
  | [c] => [vsp1_dl_list_fill_header singleshot c true headDma true]
  | c :: c2 :: rest =>
      vsp1_dl_list_fill_header singleshot c true c2.dma false ::
        commitFillChildren singleshot headDma (c2 :: rest)

/-- The header-filling phase of vsp1_dl_list_commit followed by setting
dl->internal: in header mode fill the head header (is_last :=
list_empty(dl->chain)) and every chained child header; in headerless mode
only the internal flag is set. -/
def commitPrepare (dlm : vsp1_dl_manager) (dl : vsp1_dl_list)
    (internal : Bool) : vsp1_dl_list :=
  let dl1 :=
    if dlm.mode = vsp1_dl_mode.HEADER then
      let nextDma := match dl.chain with | [] => 0 | c :: _ => c.dma
      let head := vsp1_dl_list_fill_header dlm.singleshot dl
        (!dl.chain.isEmpty) nextDma dl.chain.isEmpty
      .mk head.dma head.header head.body0 head.fragments head.has_chain
        (commitFillChildren dlm.singleshot dl.dma dl.chain) head.internal
    else dl
  .mk dl1.dma dl1.header dl1.body0 dl1.fragments dl1.has_chain dl1.chain internal

/-- vsp1_dl_list_commit_continuous.  Returns the new manager state, the
hardware-programming events performed, and whether the WARN_ON on a
dropped internal pending list fired. -/
def vsp1_dl_list_commit_continuous (dlm : vsp1_dl_manager) (updBit : Bool)
    (dl : vsp1_dl_list) : vsp1_dl_manager × List HwProgram × Bool :=
  if vsp1_dl_list_hw_update_pending dlm updBit then
    let warn :=
      match dlm.pending with
      | some p => p.internal
      | none => false
    let m := vsp1_dl_list_put_locked dlm dlm.pending
    ({ m with pending := some dl }, [], warn)
  else
    let prog := vsp1_dl_list_hw_enqueue dlm.mode dl
    let m := vsp1_dl_list_put_locked dlm dlm.queued
    ({ m with queued := some dl }, [prog], false)

/-- vsp1_dl_list_commit_singleshot: program the hardware and mark the
list active. -/
def vsp1_dl_list_commit_singleshot (dlm : vsp1_dl_manager)
    (dl : vsp1_dl_list) : vsp1_dl_manager × List HwProgram :=
  ({ dlm with active := some dl }, [vsp1_dl_list_hw_enqueue dlm.mode dl])

/-- vsp1_dl_list_commit: fill headers (header mode), set the internal
flag, then dispatch on the cycling mode. -/
def vsp1_dl_list_commit (dlm : vsp1_dl_manager) (updBit : Bool)
    (dl : vsp1_dl_list) (internal : Bool) :
    vsp1_dl_manager × List HwProgram × Bool :=
  let dl := commitPrepare dlm dl internal
  if dlm.singleshot then
    let r := vsp1_dl_list_commit_singleshot dlm dl
    (r.1, r.2, false)
  else
    vsp1_dl_list_commit_continuous dlm updBit dl

/-- Completion status returned by vsp1_dlm_irq_frame_end:
VSP1_DL_FRAME_END_COMPLETED and VSP1_DL_FRAME_END_INTERNAL as Booleans. -/
structure FrameEndFlags where
  completed : Bool
  internal : Bool
deriving DecidableEq

/-- vsp1_dlm_irq_frame_end.  Returns the new manager state, the
completion flags, and the hardware-programming events performed. -/
def vsp1_dlm_irq_frame_end (dlm : vsp1_dl_manager) (updBit : Bool) :
    vsp1_dl_manager × FrameEndFlags × List HwProgram :=
  if dlm.singleshot then
    let m := vsp1_dl_list_put_locked dlm dlm.active
    ({ m with active := none }, ⟨true, false⟩, [])
  else if vsp1_dl_list_hw_update_pending dlm updBit then
    (dlm, ⟨false, false⟩, [])
  else
    let step1 : vsp1_dl_manager × FrameEndFlags :=
      match dlm.queued with
      | some q =>
          let m := vsp1_dl_list_put_locked dlm dlm.active
          ({ m with
              active := some (.mk q.dma q.header q.body0 q.fragments
                q.has_chain q.chain false),
              queued := none },
           ⟨true, q.internal⟩)
      | none => (dlm, ⟨false, false⟩)
    match step1.1.pending with
    | some p =>
        ({ step1.1 with queued := some p, pending := none }, step1.2,
         [vsp1_dl_list_hw_enqueue step1.1.mode p])
    | none => (step1.1, step1.2, [])

/-- vsp1_dlm_reset: release the three pipeline slots and clear them. -/
def vsp1_dlm_reset (dlm : vsp1_dl_manager) : vsp1_dl_manager :=
  let m := vsp1_dl_list_put_locked dlm dlm.active
  let m := vsp1_dl_list_put_locked m m.queued
  let m := vsp1_dl_list_put_locked m m.pending
  { m with active := none, queued := none, pending := none }

/-- vsp1_dlm_create: mode and cycling mode from the WPF index and the
userspace-API flag, plus prealloc freshly allocated display lists in the
free pool.  bodyDmas supplies the device address the allocator returns
for the i-th body. -/
def vsp1_dlm_create (index : Nat) (uapi : Bool) (prealloc : Nat)
    (bodyDmas : Nat → Nat) : vsp1_dl_manager :=
  let mode :=
    if index = 0 ∧ ¬uapi then vsp1_dl_mode.HEADERLESS else vsp1_dl_mode.HEADER
  { mode := mode,
    singleshot := uapi,
    free := (List.range prealloc).map (fun i => vsp1_dl_list_alloc mode (bodyDmas i)),
    active := none,
    queued := none,
    pending := none,
    gc_fragments := [] }

mutual

/-- Lists that vsp1_dl_list_put_locked appends to the free pool, in
order: recursively the chained children, then the list itself, reset. -/
def putFreeAdds : Option vsp1_dl_list → List vsp1_dl_list
  | none => []
  | some dl =>
      (if dl.has_chain then chainFreeAdds dl.chain else []) ++ [resetList dl]
termination_by o => sizeOf o
decreasing_by
  cases dl
  simp [vsp1_dl_list.chain]
  omega

def chainFreeAdds : List vsp1_dl_list → List vsp1_dl_list
  | [] => []
  | c :: rest => putFreeAdds (some c) ++ chainFreeAdds rest
termination_by l => sizeOf l
decreasing_by
  all_goals have hpos : 0 < sizeOf rest := by cases rest <;> simp_arith
  all_goals simp
  all_goals omega

end

mutual

/-- Fragments that vsp1_dl_list_put_locked splices onto the head of the
deferred-free list (later splices end up in front). -/
def putGcAdds : Option vsp1_dl_list → List vsp1_dl_body
  | none => []
  | some dl =>
      dl.fragments ++ (if dl.has_chain then chainGcAdds dl.chain else [])
termination_by o => sizeOf o
decreasing_by
  cases dl
  simp [vsp1_dl_list.chain]
  omega

def chainGcAdds : List vsp1_dl_list → List vsp1_dl_body
  | [] => []
  | c :: rest => chainGcAdds rest ++ putGcAdds (some c)
termination_by l => sizeOf l
decreasing_by
  all_goals have hpos : 0 < sizeOf rest := by cases rest <;> simp_arith
  all_goals simp
  all_goals omega

end

/-- A display list is in its recycled state: primary entry count zero,
no fragments, chain flag cleared. -/
def listReset (dl : vsp1_dl_list) : Prop :=
  dl.body0.num_entries = 0 ∧ dl.fragments = [] ∧ dl.has_chain = false

/-- Invariant of the manager: every list in the free pool is recycled. -/
def freeInv (dlm : vsp1_dl_manager) : Prop :=
  ∀ dl ∈ dlm.free, listReset dl

/-- Example fragment body with two written entries. -/
def exBody : vsp1_dl_body :=
  { entries := fun _ => ⟨0, 0⟩, dma := 64, size := 16, num_entries := 2 }

/-- Example display lists as allocated in header mode. -/
def exList0 : vsp1_dl_list := vsp1_dl_list_alloc vsp1_dl_mode.HEADER 4096

def exList1 : vsp1_dl_list := vsp1_dl_list_alloc vsp1_dl_mode.HEADER 8192

def exList2 : vsp1_dl_list := vsp1_dl_list_alloc vsp1_dl_mode.HEADER 12288

/-- Example continuous-mode header manager with one preallocated list. -/
def exM0 : vsp1_dl_manager := vsp1_dlm_create 1 false 1 (fun i => 4096 + 4096 * i)

/-- exM0 with a queued and a pending list installed. -/
def exM1 : vsp1_dl_manager :=
  { exM0 with queued := some exList1, pending := some exList2 }

/-- Example single-shot manager (userspace API device) with an active list. -/
def exMss : vsp1_dl_manager :=
  { vsp1_dlm_create 0 true 1 (fun i => 4096 + 4096 * i) with active := some exList1 }

/-- Second example fragment body with three written entries. -/
def exBody2 : vsp1_dl_body :=
  { entries := fun _ => ⟨0, 0⟩, dma := 128, size := 24, num_entries := 3 }

/-- exList0 with the fragments exBody and exBody2 attached. -/
def exListFrags : vsp1_dl_list :=
  (vsp1_dl_list_add_fragment vsp1_dl_mode.HEADER
    ((vsp1_dl_list_add_fragment vsp1_dl_mode.HEADER exList0 exBody).2)
    exBody2).2

/-- exList0 as head of the chain [exList1, exList2]. -/
def exListChain : vsp1_dl_list :=
  (vsp1_dl_list_add_chain vsp1_dl_mode.HEADER
    ((vsp1_dl_list_add_chain vsp1_dl_mode.HEADER exList0 exList1).2)
    exList2).2

@[simp] theorem vsp1_dl_list.dma_mk (d h b f hc c i) :
    (vsp1_dl_list.mk d h b f hc c i).dma = d := rfl

@[simp] theorem vsp1_dl_list.header_mk (d h b f hc c i) :
    (vsp1_dl_list.mk d h b f hc c i).header = h := rfl

@[simp] theorem vsp1_dl_list.body0_mk (d h b f hc c i) :
    (vsp1_dl_list.mk d h b f hc c i).body0 = b := rfl

@[simp] theorem vsp1_dl_list.fragments_mk (d h b f hc c i) :
    (vsp1_dl_list.mk d h b f hc c i).fragments = f := rfl

@[simp] theorem vsp1_dl_list.has_chain_mk (d h b f hc c i) :
    (vsp1_dl_list.mk d h b f hc c i).has_chain = hc := rfl

@[simp] theorem vsp1_dl_list.chain_mk (d h b f hc c i) :
    (vsp1_dl_list.mk d h b f hc c i).chain = c := rfl

@[simp] theorem vsp1_dl_list.internal_mk (d h b f hc c i) :
    (vsp1_dl_list.mk d h b f hc c i).internal = i := rfl

mutual

/-- Characterisation of vsp1_dl_list_put_locked: it only appends
putFreeAdds to the free pool and puts putGcAdds in front of the
deferred-free list; every other manager field is untouched. -/
theorem put_locked_spec (dlm : vsp1_dl_manager) (o : Option vsp1_dl_list) :
    vsp1_dl_list_put_locked dlm o =
      { dlm with
          free := dlm.free ++ putFreeAdds o,
          gc_fragments := putGcAdds o ++ dlm.gc_fragments } := by
  match o with
  | none =>
      simp [vsp1_dl_list_put_locked, putFreeAdds, putGcAdds]
  | some dl =>
      rw [vsp1_dl_list_put_locked]
      have hchain := putChainChildren_spec dlm dl.chain
      cases hc : dl.has_chain <;> cases hf : dl.fragments.isEmpty <;>
        simp_all [putFreeAdds, putGcAdds, List.isEmpty_iff]
termination_by sizeOf o
decreasing_by
  cases dl
  simp [vsp1_dl_list.chain]
  omega

theorem putChainChildren_spec (dlm : vsp1_dl_manager)
    (cs : List vsp1_dl_list) :
    putChainChildren dlm cs =
      { dlm with
          free := dlm.free ++ chainFreeAdds cs,
          gc_fragments := chainGcAdds cs ++ dlm.gc_fragments } := by
  match cs with
  | [] => simp [putChainChildren, chainFreeAdds, chainGcAdds]
  | c :: rest =>
      rw [putChainChildren]
      rw [put_locked_spec]
      rw [putChainChildren_spec]
      simp [chainFreeAdds, chainGcAdds]
termination_by sizeOf cs
decreasing_by
  all_goals have hpos : 0 < sizeOf rest := by cases rest <;> simp_arith
  all_goals simp
  all_goals omega

end

theorem fillFragmentDescs_count (fs : List vsp1_dl_body)
    (L : Nat → vsp1_dl_header_list) (n : Nat) :
    (fillFragmentDescs L n fs).2 = n + fs.length := by
  induction fs generalizing L n with
  | nil => simp [fillFragmentDescs]
  | cons f rest ih =>
      rw [fillFragmentDescs]
      rw [ih]
      simp only [List.length_cons]
      omega

theorem fillFragmentDescs_untouched (fs : List vsp1_dl_body)
    (L : Nat → vsp1_dl_header_list) (n i : Nat)
    (h : i ≤ n ∨ n + fs.length < i) :
    (fillFragmentDescs L n fs).1 i = L i := by
  induction fs generalizing L n with
  | nil => simp [fillFragmentDescs]
  | cons f rest ih =>
      rw [fillFragmentDescs]
      simp only [List.length_cons] at h
      rw [ih]
      · exact Function.update_noteq (by omega) _ _
      · omega

theorem fillFragmentDescs_written (fs : List vsp1_dl_body)
    (L : Nat → vsp1_dl_header_list) (n j : Nat) (hj : j < fs.length) :
    (fillFragmentDescs L n fs).1 (n + 1 + j) =
      ⟨(fs.get ⟨j, hj⟩).num_entries * HEADER_LIST_SIZE, (fs.get ⟨j, hj⟩).dma⟩ := by
  induction fs generalizing L n j with
  | nil => simp at hj
  | cons f rest ih =>
      rw [fillFragmentDescs]
      match j with
      | 0 =>
          rw [fillFragmentDescs_untouched rest _ (n + 1) (n + 1) (Or.inl le_rfl)]
          simp
      | j + 1 =>
          have hr : j < rest.length := by simpa using hj
          have := ih (Function.update L (n + 1)
            ⟨f.num_entries * HEADER_LIST_SIZE, f.dma⟩) (n + 1) j hr
          have harith : n + 1 + (j + 1) = n + 1 + 1 + j := by omega
          rw [harith]
          rw [this]
          simp

/-- The descriptor slots written by fill_header do not depend on the
forward-link branch: they are the fragment loop applied after the
primary byte length update of slot 0. -/
theorem fill_header_lists_eq (singleshot : Bool) (dl : vsp1_dl_list)
    (inChain : Bool) (nextDma : Nat) (is_last : Bool) :
    (vsp1_dl_list_fill_header singleshot dl inChain nextDma is_last).header.lists =
      (fillFragmentDescs
        (Function.update dl.header.lists 0
          { (dl.header.lists 0) with
              num_bytes := dl.body0.num_entries * HEADER_LIST_SIZE })
        0 dl.fragments).1 := by
  simp only [vsp1_dl_list_fill_header]
  by_cases hc : inChain = true ∧ ¬is_last = true
  · rw [if_pos hc]
    simp
  · rw [if_neg hc]
    cases singleshot <;> simp

/-- C4: in header mode, fill_header writes the body descriptors in order
[primary, F1, ..., Fk]: slot 0 keeps its pre-populated address and gets
the primary byte length num_entries * 8 (the entry size), slot j+1 holds
fragment j's device address and its entry count times the entry size,
and the recorded list count equals the number of fragments. -/
theorem fill_header_descs (singleshot : Bool) (dl : vsp1_dl_list)
    (inChain : Bool) (nextDma : Nat) (is_last : Bool) :
    let h := (vsp1_dl_list_fill_header singleshot dl inChain nextDma is_last).header
    h.lists 0 = ⟨dl.body0.num_entries * HEADER_LIST_SIZE, (dl.header.lists 0).addr⟩ ∧
    (∀ j, (hj : j < dl.fragments.length) →
      h.lists (j + 1) =
        ⟨(dl.fragments.get ⟨j, hj⟩).num_entries * HEADER_LIST_SIZE,
         (dl.fragments.get ⟨j, hj⟩).dma⟩) ∧
    h.num_lists = dl.fragments.length := by
  intro h
  have hlists : ∀ i, h.lists i = (fillFragmentDescs
      (Function.update dl.header.lists 0
        { (dl.header.lists 0) with
            num_bytes := dl.body0.num_entries * HEADER_LIST_SIZE })
      0 dl.fragments).1 i := by
    intro i
    rw [show h.lists = (vsp1_dl_list_fill_header singleshot dl inChain
      nextDma is_last).header.lists from rfl]
    rw [fill_header_lists_eq]
  refine ⟨?_, ?_, ?_⟩
  · rw [hlists 0]
    rw [fillFragmentDescs_untouched _ _ _ _ (Or.inl le_rfl)]
    simp
  · intro j hj
    rw [hlists (j + 1)]
    have hw := fillFragmentDescs_written dl.fragments
      (Function.update dl.header.lists 0
        { (dl.header.lists 0) with
            num_bytes := dl.body0.num_entries * HEADER_LIST_SIZE }) 0 j hj
    have harith : 0 + 1 + j = j + 1 := by omega
    rw [harith] at hw
    exact hw
  · simp only [h, vsp1_dl_list_fill_header]
    by_cases hc : inChain = true ∧ ¬is_last = true
    · rw [if_pos hc]
      simp [fillFragmentDescs_count]
    · rw [if_neg hc]
      cases singleshot <;> simp [fillFragmentDescs_count]

/-- C10: the header holds exactly VSP1_DL_HEADER_NUM_LISTS = 8 body
descriptor slots (primary plus at most 7 fragments); for a list with at
most 7 fragments, fill_header leaves every slot at index 8 and beyond
untouched, i.e. all descriptor writes land inside the array. -/
theorem fill_header_in_bounds (singleshot : Bool) (dl : vsp1_dl_list)
    (inChain : Bool) (nextDma : Nat) (is_last : Bool)
    (hfrag : dl.fragments.length ≤ VSP1_DL_HEADER_NUM_LISTS - 1) :
    ∀ i, VSP1_DL_HEADER_NUM_LISTS ≤ i →
      (vsp1_dl_list_fill_header singleshot dl inChain nextDma
        is_last).header.lists i = dl.header.lists i := by
  intro i hi
  rw [fill_header_lists_eq]
  rw [fillFragmentDescs_untouched]
  · rw [Function.update_noteq]
    simp only [VSP1_DL_HEADER_NUM_LISTS] at hi
    omega
  · simp only [VSP1_DL_HEADER_NUM_LISTS] at hi hfrag
    omega

theorem commitFillChildren_length (singleshot : Bool) (headDma : Nat)
    (cs : List vsp1_dl_list) :
    (commitFillChildren singleshot headDma cs).length = cs.length := by
  induction cs with
  | nil => simp [commitFillChildren]
  | cons c rest ih =>
      cases rest with
      | nil => simp [commitFillChildren]
      | cons c2 rest2 =>
          rw [commitFillChildren]
          simpa using ih

theorem commitFillChildren_getElem (singleshot : Bool) (headDma : Nat)
    (cs : List vsp1_dl_list) (i : Nat) (c : vsp1_dl_list)
    (h : cs[i]? = some c) :
    (commitFillChildren singleshot headDma cs)[i]? =
      some (vsp1_dl_list_fill_header singleshot c true
        (match cs[i + 1]? with | some c2 => c2.dma | none => headDma)
        (decide (i + 1 = cs.length))) := by
  induction cs generalizing i with
  | nil => simp at h
  | cons c0 rest ih =>
      cases rest with
      | nil =>
          cases i with
          | zero =>
              simp only [List.getElem?_cons_zero, Option.some_inj] at h
              subst h
              simp [commitFillChildren]
          | succ j => simp at h
      | cons c2 rest2 =>
          rw [commitFillChildren]
          cases i with
          | zero =>
              simp only [List.getElem?_cons_zero, Option.some_inj] at h
              subst h
              simp only [List.getElem?_cons_zero, List.getElem?_cons_succ]
              simp [List.length_cons]
          | succ j =>
              simp only [List.getElem?_cons_succ] at h
              rw [List.getElem?_cons_succ]
              rw [ih j h]
              simp only [List.getElem?_cons_succ, List.length_cons]
              rw [show (decide (j + 1 + 1 = rest2.length + 1 + 1)) =
                  (decide (j + 1 = rest2.length + 1)) from
                decide_eq_decide.mpr (by omega)]

/-- C3: fill_header sets the forward link by a three-way rule: chained
and not last, the next chained list's address with only the auto-start
flag; otherwise in continuous mode, the list's own address with
auto-start and interrupt-enable; otherwise (single-shot, last) only the
interrupt-enable flag and no auto-start.  And commit fills the head with
is_last = (chain empty) and the i-th chained child with is_last =
(i + 1 = chain length), so is_last holds only for the last element. -/
theorem fill_header_link_rule :
    (∀ (ss : Bool) (dl : vsp1_dl_list) (nextDma : Nat),
      (vsp1_dl_list_fill_header ss dl true nextDma false).header.next_header
          = nextDma ∧
      (vsp1_dl_list_fill_header ss dl true nextDma false).header.flags
          = VSP1_DLH_AUTO_START) ∧
    (∀ (dl : vsp1_dl_list) (inChain : Bool) (nextDma : Nat) (is_last : Bool),
      (inChain = false ∨ is_last = true) →
      (vsp1_dl_list_fill_header false dl inChain nextDma
          is_last).header.next_header = dl.dma ∧
      (vsp1_dl_list_fill_header false dl inChain nextDma is_last).header.flags
          = (VSP1_DLH_INT_ENABLE ||| VSP1_DLH_AUTO_START)) ∧
    (∀ (dl : vsp1_dl_list) (inChain : Bool) (nextDma : Nat) (is_last : Bool),
      (inChain = false ∨ is_last = true) →
      (vsp1_dl_list_fill_header true dl inChain nextDma is_last).header.flags
          = VSP1_DLH_INT_ENABLE ∧
      (vsp1_dl_list_fill_header true dl inChain nextDma is_last).header.flags
          &&& VSP1_DLH_AUTO_START = 0) ∧
    (∀ (dlm : vsp1_dl_manager) (dl : vsp1_dl_list) (internal : Bool),
      dlm.mode = vsp1_dl_mode.HEADER →
      (commitPrepare dlm dl internal).header =
        (vsp1_dl_list_fill_header dlm.singleshot dl (!dl.chain.isEmpty)
          (match dl.chain with | [] => 0 | c :: _ => c.dma)
          dl.chain.isEmpty).header ∧
      (∀ i c, dl.chain[i]? = some c →
        (commitPrepare dlm dl internal).chain[i]? =
          some (vsp1_dl_list_fill_header dlm.singleshot c true
            (match dl.chain[i + 1]? with | some c2 => c2.dma | none => dl.dma)
            (decide (i + 1 = dl.chain.length))))) := by
  refine ⟨?_, ?_, ?_, ?_⟩
  · intro ss dl nextDma
    simp [vsp1_dl_list_fill_header]
  · intro dl inChain nextDma is_last hlast
    constructor <;>
      · simp only [vsp1_dl_list_fill_header]
        rw [if_neg (by rcases hlast with h | h <;> simp [h])]
        simp
  · intro dl inChain nextDma is_last hlast
    constructor
    · simp only [vsp1_dl_list_fill_header]
      rw [if_neg (by rcases hlast with h | h <;> simp [h])]
      simp
    · simp only [vsp1_dl_list_fill_header]
      rw [if_neg (by rcases hlast with h | h <;> simp [h])]
      simp [VSP1_DLH_INT_ENABLE, VSP1_DLH_AUTO_START]
  · intro dlm dl internal hmode
    constructor
    · simp [commitPrepare, hmode]
    · intro i c hc
      have hchain : (commitPrepare dlm dl internal).chain =
          commitFillChildren dlm.singleshot dl.dma dl.chain := by
        simp [commitPrepare, hmode]
      rw [hchain]
      exact commitFillChildren_getElem dlm.singleshot dl.dma dl.chain i c hc

theorem putFreeAdds_some_mem (dl : vsp1_dl_list) :
    resetList dl ∈ putFreeAdds (some dl) := by
  rw [putFreeAdds]
  simp

/-- C1: in continuous mode, commit splits on hardware acceptance of the
previously queued program.  Not yet accepted: the old pending list (if
any) is released back to the free pool, the WARN fires exactly when that
dropped pending list was internal, the new (prepared) list is stored as
pending, and no hardware programming happens.  Accepted: the new list is
programmed into hardware, the old queued list is released, and the queued
slot becomes the new list. -/
theorem commit_continuous_case_split (dlm : vsp1_dl_manager) (updBit : Bool)
    (dl : vsp1_dl_list) (internal : Bool) (hss : dlm.singleshot = false) :
    (vsp1_dl_list_hw_update_pending dlm updBit = true →
      (vsp1_dl_list_commit dlm updBit dl internal).1.pending
          = some (commitPrepare dlm dl internal) ∧
      (vsp1_dl_list_commit dlm updBit dl internal).1.queued = dlm.queued ∧
      (vsp1_dl_list_commit dlm updBit dl internal).1.active = dlm.active ∧
      (vsp1_dl_list_commit dlm updBit dl internal).2.1 = [] ∧
      (vsp1_dl_list_commit dlm updBit dl internal).1.free
          = dlm.free ++ putFreeAdds dlm.pending ∧
      (∀ p, dlm.pending = some p →
        resetList p ∈ (vsp1_dl_list_commit dlm updBit dl internal).1.free) ∧
      ((vsp1_dl_list_commit dlm updBit dl internal).2.2 = true ↔
        ∃ p, dlm.pending = some p ∧ p.internal = true)) ∧
    (vsp1_dl_list_hw_update_pending dlm updBit = false →
      (vsp1_dl_list_commit dlm updBit dl internal).2.1
          = [vsp1_dl_list_hw_enqueue dlm.mode (commitPrepare dlm dl internal)] ∧
      (vsp1_dl_list_commit dlm updBit dl internal).1.queued
          = some (commitPrepare dlm dl internal) ∧
      (vsp1_dl_list_commit dlm updBit dl internal).1.active = dlm.active ∧
      (vsp1_dl_list_commit dlm updBit dl internal).1.pending = dlm.pending ∧
      (vsp1_dl_list_commit dlm updBit dl internal).1.free
          = dlm.free ++ putFreeAdds dlm.queued ∧
      (∀ q, dlm.queued = some q →
        resetList q ∈ (vsp1_dl_list_commit dlm updBit dl internal).1.free) ∧
      (vsp1_dl_list_commit dlm updBit dl internal).2.2 = false) := by
  constructor
  · intro hupd
    have hr : vsp1_dl_list_commit dlm updBit dl internal =
        ({ vsp1_dl_list_put_locked dlm dlm.pending with
            pending := some (commitPrepare dlm dl internal) }, [],
          match dlm.pending with | some p => p.internal | none => false) := by
      simp [vsp1_dl_list_commit, hss, vsp1_dl_list_commit_continuous, hupd]
    rw [hr, put_locked_spec]
    refine ⟨rfl, rfl, rfl, rfl, rfl, ?_, ?_⟩
    · intro p hp
      rw [hp]
      simp [putFreeAdds_some_mem]
    · cases hp : dlm.pending with
      | none => simp
      | some p => simp
  · intro hupd
    have hr : vsp1_dl_list_commit dlm updBit dl internal =
        ({ vsp1_dl_list_put_locked dlm dlm.queued with
            queued := some (commitPrepare dlm dl internal) },
          [vsp1_dl_list_hw_enqueue dlm.mode (commitPrepare dlm dl internal)],
          false) := by
      simp [vsp1_dl_list_commit, hss, vsp1_dl_list_commit_continuous, hupd]
    rw [hr, put_locked_spec]
    refine ⟨rfl, rfl, rfl, rfl, rfl, ?_, rfl⟩
    intro q hq
    rw [hq]
    simp [putFreeAdds_some_mem]

/-- Witness for C1 at a concrete continuous-mode manager with a queued
and an internal-free pending list, while the hardware still reports the
update as pending. -/
theorem commit_continuous_case_split_witness :
    exM1.singleshot = false ∧
    vsp1_dl_list_hw_update_pending exM1 true = true ∧
    (vsp1_dl_list_commit exM1 true exList0 false).1.pending
        = some (commitPrepare exM1 exList0 false) ∧
    (vsp1_dl_list_commit exM1 true exList0 false).2.1 = [] := by
  have h := commit_continuous_case_split exM1 true exList0 false rfl
  have hupd : vsp1_dl_list_hw_update_pending exM1 true = true := rfl
  have h1 := h.1 hupd
  exact ⟨rfl, hupd, h1.1, h1.2.2.2.1⟩

theorem commit_enqueue_eq (dlm : vsp1_dl_manager) (updBit : Bool)
    (dl : vsp1_dl_list) (internal : Bool) (hss : dlm.singleshot = false)
    (hupd : vsp1_dl_list_hw_update_pending dlm updBit = false) :
    vsp1_dl_list_commit dlm updBit dl internal =
      ({ vsp1_dl_list_put_locked dlm dlm.queued with
          queued := some (commitPrepare dlm dl internal) },
        [vsp1_dl_list_hw_enqueue dlm.mode (commitPrepare dlm dl internal)],
        false) := by
  simp [vsp1_dl_list_commit, hss, vsp1_dl_list_commit_continuous, hupd]

/-- C9: the hardware-acceptance query returns false whenever nothing is
queued, so a continuous-mode commit with an empty queued slot never goes
to pending: it always programs the hardware and fills the queued slot,
leaving pending untouched. -/
theorem hw_update_pending_needs_queued :
    (∀ (dlm : vsp1_dl_manager) (updBit : Bool),
      dlm.queued = none → vsp1_dl_list_hw_update_pending dlm updBit = false) ∧
    (∀ (dlm : vsp1_dl_manager) (updBit : Bool) (dl : vsp1_dl_list)
        (internal : Bool),
      dlm.singleshot = false → dlm.queued = none →
      (vsp1_dl_list_commit dlm updBit dl internal).1.queued
          = some (commitPrepare dlm dl internal) ∧
      (vsp1_dl_list_commit dlm updBit dl internal).1.pending = dlm.pending ∧
      (vsp1_dl_list_commit dlm updBit dl internal).1.free = dlm.free ∧
      (vsp1_dl_list_commit dlm updBit dl internal).2.1
          = [vsp1_dl_list_hw_enqueue dlm.mode (commitPrepare dlm dl internal)]) := by
  constructor
  · intro dlm updBit hq
    simp [vsp1_dl_list_hw_update_pending, hq]
  · intro dlm updBit dl internal hss hq
    have hupd : vsp1_dl_list_hw_update_pending dlm updBit = false := by
      simp [vsp1_dl_list_hw_update_pending, hq]
    rw [commit_enqueue_eq dlm updBit dl internal hss hupd, put_locked_spec]
    rw [hq]
    refine ⟨rfl, rfl, ?_, rfl⟩
    simp [putFreeAdds]

/-- Witness for C9 at a concrete continuous-mode manager with nothing
queued, even while the raw hardware bit reads as set. -/
theorem hw_update_pending_needs_queued_witness :
    exM0.queued = none ∧
    vsp1_dl_list_hw_update_pending exM0 true = false ∧
    (vsp1_dl_list_commit exM0 true exList0 false).1.queued
        = some (commitPrepare exM0 exList0 false) ∧
    (vsp1_dl_list_commit exM0 true exList0 false).1.pending = none := by
  have h := hw_update_pending_needs_queued.2 exM0 true exList0 false rfl rfl
  exact ⟨rfl, hw_update_pending_needs_queued.1 exM0 true rfl, h.1,
    h.2.1.trans rfl⟩

/-- C6: in single-shot mode, commit programs the hardware at once and
stores the (prepared) list in the active slot, leaving queued, pending
and the free pool untouched; and every frame-end interrupt, whatever the
hardware-acceptance bit reads, reports completed without internal,
releases the active list to the free pool and clears the active slot. -/
theorem singleshot_commit_irq (dlm : vsp1_dl_manager) (updBit : Bool)
    (dl : vsp1_dl_list) (internal : Bool) (hss : dlm.singleshot = true) :
    ((vsp1_dl_list_commit dlm updBit dl internal).1.active
        = some (commitPrepare dlm dl internal) ∧
      (vsp1_dl_list_commit dlm updBit dl internal).1.queued = dlm.queued ∧
      (vsp1_dl_list_commit dlm updBit dl internal).1.pending = dlm.pending ∧
      (vsp1_dl_list_commit dlm updBit dl internal).1.free = dlm.free ∧
      (vsp1_dl_list_commit dlm updBit dl internal).2.1
          = [vsp1_dl_list_hw_enqueue dlm.mode (commitPrepare dlm dl internal)]) ∧
    ((vsp1_dlm_irq_frame_end dlm updBit).2.1 = ⟨true, false⟩ ∧
      (vsp1_dlm_irq_frame_end dlm updBit).1.active = none ∧
      (vsp1_dlm_irq_frame_end dlm updBit).1.queued = dlm.queued ∧
      (vsp1_dlm_irq_frame_end dlm updBit).1.pending = dlm.pending ∧
      (vsp1_dlm_irq_frame_end dlm updBit).1.free
          = dlm.free ++ putFreeAdds dlm.active ∧
      (∀ a, dlm.active = some a →
        resetList a ∈ (vsp1_dlm_irq_frame_end dlm updBit).1.free) ∧
      (vsp1_dlm_irq_frame_end dlm updBit).2.2 = []) := by
  constructor
  · have hr : vsp1_dl_list_commit dlm updBit dl internal =
        ({ dlm with active := some (commitPrepare dlm dl internal) },
          [vsp1_dl_list_hw_enqueue dlm.mode (commitPrepare dlm dl internal)],
          false) := by
      simp [vsp1_dl_list_commit, hss, vsp1_dl_list_commit_singleshot]
    rw [hr]
    exact ⟨rfl, rfl, rfl, rfl, rfl⟩
  · have hr : vsp1_dlm_irq_frame_end dlm updBit =
        ({ vsp1_dl_list_put_locked dlm dlm.active with active := none },
          ⟨true, false⟩, []) := by
      simp [vsp1_dlm_irq_frame_end, hss]
    rw [hr, put_locked_spec]
    refine ⟨rfl, rfl, rfl, rfl, rfl, ?_, rfl⟩
    intro a ha
    rw [ha]
    simp [putFreeAdds_some_mem]

/-- Witness for C6 at a concrete single-shot manager with an active
list, with the hardware bit reading as set. -/
theorem singleshot_commit_irq_witness :
    exMss.singleshot = true ∧
    (vsp1_dl_list_commit exMss true exList0 false).1.active
        = some (commitPrepare exMss exList0 false) ∧
    (vsp1_dlm_irq_frame_end exMss true).2.1 = ⟨true, false⟩ ∧
    (vsp1_dlm_irq_frame_end exMss true).1.active = none := by
  have h := singleshot_commit_irq exMss true exList0 false rfl
  exact ⟨rfl, h.1.1, h.2.1, h.2.2.1⟩

/-- C2: in continuous mode, the frame-end handler reports not-completed
and leaves the whole state unchanged while the hardware has not yet
accepted the last program.  Otherwise, an occupied queued slot yields
completed together with its internal flag, the promoted list has its
internal flag cleared, the old active list is released, and queued is
cleared; afterwards a pending list (if any) is programmed into hardware
and promoted to queued, clearing pending (with no pending list, queued
ends up empty and nothing is programmed). -/
theorem irq_frame_end_continuous (dlm : vsp1_dl_manager) (updBit : Bool)
    (hss : dlm.singleshot = false) :
    (vsp1_dl_list_hw_update_pending dlm updBit = true →
      vsp1_dlm_irq_frame_end dlm updBit = (dlm, ⟨false, false⟩, [])) ∧
    (vsp1_dl_list_hw_update_pending dlm updBit = false →
      (∀ q, dlm.queued = some q →
        (vsp1_dlm_irq_frame_end dlm updBit).2.1 = ⟨true, q.internal⟩ ∧
        (vsp1_dlm_irq_frame_end dlm updBit).1.active
            = some (.mk q.dma q.header q.body0 q.fragments q.has_chain
                q.chain false) ∧
        (vsp1_dlm_irq_frame_end dlm updBit).1.free
            = dlm.free ++ putFreeAdds dlm.active ∧
        (∀ a, dlm.active = some a →
          resetList a ∈ (vsp1_dlm_irq_frame_end dlm updBit).1.free)) ∧
      (dlm.queued = none →
        (vsp1_dlm_irq_frame_end dlm updBit).2.1 = ⟨false, false⟩ ∧
        (vsp1_dlm_irq_frame_end dlm updBit).1.active = dlm.active) ∧
      (∀ p, dlm.pending = some p →
        (vsp1_dlm_irq_frame_end dlm updBit).1.queued = some p ∧
        (vsp1_dlm_irq_frame_end dlm updBit).1.pending = none ∧
        (vsp1_dlm_irq_frame_end dlm updBit).2.2
            = [vsp1_dl_list_hw_enqueue dlm.mode p]) ∧
      (dlm.pending = none →
        (vsp1_dlm_irq_frame_end dlm updBit).1.queued = none ∧
        (vsp1_dlm_irq_frame_end dlm updBit).1.pending = none ∧
        (vsp1_dlm_irq_frame_end dlm updBit).2.2 = [])) := by
  constructor
  · intro hupd
    simp [vsp1_dlm_irq_frame_end, hss, hupd]
  · intro hupd
    have hq0 : dlm.queued = none → vsp1_dlm_irq_frame_end dlm updBit =
        (match dlm.pending with
          | some p => ({ dlm with queued := some p, pending := none },
              (⟨false, false⟩ : FrameEndFlags),
              [vsp1_dl_list_hw_enqueue dlm.mode p])
          | none => (dlm, ⟨false, false⟩, [])) := by
      intro hq
      simp [vsp1_dlm_irq_frame_end, hss, hupd, hq]
    have hq1 : ∀ q, dlm.queued = some q → vsp1_dlm_irq_frame_end dlm updBit =
        (match dlm.pending with
          | some p =>
              ({ vsp1_dl_list_put_locked dlm dlm.active with
                  active := some (.mk q.dma q.header q.body0 q.fragments
                    q.has_chain q.chain false),
                  queued := some p, pending := none },
                (⟨true, q.internal⟩ : FrameEndFlags),
                [vsp1_dl_list_hw_enqueue dlm.mode p])
          | none =>
              ({ vsp1_dl_list_put_locked dlm dlm.active with
                  active := some (.mk q.dma q.header q.body0 q.fragments
                    q.has_chain q.chain false),
                  queued := none },
                (⟨true, q.internal⟩ : FrameEndFlags), [])) := by
      intro q hq
      cases hp : dlm.pending with
      | none =>
          simp [vsp1_dlm_irq_frame_end, hss, hupd, hq, put_locked_spec, hp]
      | some p =>
          simp [vsp1_dlm_irq_frame_end, hss, hupd, hq, put_locked_spec, hp]
    refine ⟨?_, ?_, ?_, ?_⟩
    · intro q hq
      rw [hq1 q hq]
      cases hp : dlm.pending with
      | none =>
          rw [put_locked_spec]
          refine ⟨rfl, rfl, rfl, ?_⟩
          intro a ha
          rw [ha]
          simp [putFreeAdds_some_mem]
      | some p =>
          rw [put_locked_spec]
          refine ⟨rfl, rfl, rfl, ?_⟩
          intro a ha
          rw [ha]
          simp [putFreeAdds_some_mem]
    · intro hq
      rw [hq0 hq]
      cases hp : dlm.pending <;> simp
    · intro p hp
      cases hq : dlm.queued with
      | none =>
          rw [hq0 hq, hp]
          exact ⟨rfl, rfl, rfl⟩
      | some q =>
          rw [hq1 q hq, hp]
          exact ⟨rfl, rfl, rfl⟩
    · intro hp
      cases hq : dlm.queued with
      | none =>
          rw [hq0 hq, hp]
          exact ⟨hq, hp, rfl⟩
      | some q =>
          rw [hq1 q hq, hp, put_locked_spec]
          exact ⟨rfl, hp, rfl⟩

/-- Witness for C2 at a concrete continuous-mode manager with a queued
and a pending list, once the hardware has accepted the program. -/
theorem irq_frame_end_continuous_witness :
    exM1.singleshot = false ∧
    vsp1_dl_list_hw_update_pending exM1 false = false ∧
    exM1.queued = some exList1 ∧
    (vsp1_dlm_irq_frame_end exM1 false).2.1 = ⟨true, exList1.internal⟩ ∧
    (vsp1_dlm_irq_frame_end exM1 false).1.queued = some exList2 ∧
    (vsp1_dlm_irq_frame_end exM1 false).1.pending = none := by
  have h := (irq_frame_end_continuous exM1 false rfl).2 rfl
  have h1 := h.1 exList1 rfl
  have h3 := h.2.2.1 exList2 rfl
  exact ⟨rfl, rfl, rfl, h1.1, h3.1, h3.2.1⟩

/-- C8: in headerless mode, add_fragment and add_chain fail with -EINVAL
and leave the target list untouched (the body or list is not taken over);
in header mode they succeed, appending at the end of the fragment or
chain sequence, add_chain additionally setting the chain flag. -/
theorem add_fragment_add_chain_modes :
    (∀ (dl : vsp1_dl_list) (dlb : vsp1_dl_body),
      (vsp1_dl_list_add_fragment vsp1_dl_mode.HEADERLESS dl dlb).1 = -EINVAL ∧
      (vsp1_dl_list_add_fragment vsp1_dl_mode.HEADERLESS dl dlb).2 = dl) ∧
    (∀ (head dl : vsp1_dl_list),
      (vsp1_dl_list_add_chain vsp1_dl_mode.HEADERLESS head dl).1 = -EINVAL ∧
      (vsp1_dl_list_add_chain vsp1_dl_mode.HEADERLESS head dl).2 = head) ∧
    (∀ (dl : vsp1_dl_list) (dlb : vsp1_dl_body),
      (vsp1_dl_list_add_fragment vsp1_dl_mode.HEADER dl dlb).1 = 0 ∧
      (vsp1_dl_list_add_fragment vsp1_dl_mode.HEADER dl dlb).2.fragments
          = dl.fragments ++ [dlb] ∧
      (vsp1_dl_list_add_fragment vsp1_dl_mode.HEADER dl dlb).2.chain
          = dl.chain ∧
      (vsp1_dl_list_add_fragment vsp1_dl_mode.HEADER dl dlb).2.has_chain
          = dl.has_chain) ∧
    (∀ (head dl : vsp1_dl_list),
      (vsp1_dl_list_add_chain vsp1_dl_mode.HEADER head dl).1 = 0 ∧
      (vsp1_dl_list_add_chain vsp1_dl_mode.HEADER head dl).2.chain
          = head.chain ++ [dl] ∧
      (vsp1_dl_list_add_chain vsp1_dl_mode.HEADER head dl).2.has_chain = true ∧
      (vsp1_dl_list_add_chain vsp1_dl_mode.HEADER head dl).2.fragments
          = head.fragments) := by
  refine ⟨?_, ?_, ?_, ?_⟩ <;> intros <;>
    simp [vsp1_dl_list_add_fragment, vsp1_dl_list_add_chain]

/-- Witness for C4 at a list carrying the two fragments exBody and
exBody2: descriptors come out in order with byte sizes 2 * 8 and 3 * 8
and the fragment count is 2. -/
theorem fill_header_descs_witness :
    (vsp1_dl_list_fill_header false exListFrags false 0 true).header.lists 1
        = ⟨exBody.num_entries * HEADER_LIST_SIZE, exBody.dma⟩ ∧
    (vsp1_dl_list_fill_header false exListFrags false 0 true).header.lists 2
        = ⟨exBody2.num_entries * HEADER_LIST_SIZE, exBody2.dma⟩ ∧
    (vsp1_dl_list_fill_header false exListFrags false 0 true).header.num_lists
        = 2 := by
  have h := fill_header_descs false exListFrags false 0 true
  refine ⟨?_, ?_, ?_⟩
  · exact h.2.1 0 (by decide)
  · exact h.2.1 1 (by decide)
  · exact h.2.2.trans rfl

/-- Witness for C10 at the same two-fragment list: two fragments is
within the bound and slot 8 is untouched. -/
theorem fill_header_in_bounds_witness :
    exListFrags.fragments.length ≤ VSP1_DL_HEADER_NUM_LISTS - 1 ∧
    (vsp1_dl_list_fill_header false exListFrags false 0 true).header.lists 8
        = exListFrags.header.lists 8 := by
  refine ⟨by decide, ?_⟩
  exact fill_header_in_bounds false exListFrags false 0 true (by decide) 8
    (by decide)

/-- Witness for C3 at concrete lists: the three forward-link cases, and
on the chain [exList1, exList2] of exListChain commit fills exList1 with
is_last false (link to exList2) and exList2 with is_last true. -/
theorem fill_header_link_rule_witness :
    (vsp1_dl_list_fill_header false exList0 true 8448 false).header.next_header
        = 8448 ∧
    (vsp1_dl_list_fill_header false exList0 true 8448 false).header.flags
        = VSP1_DLH_AUTO_START ∧
    (vsp1_dl_list_fill_header false exList0 false 0 true).header.flags
        = (VSP1_DLH_INT_ENABLE ||| VSP1_DLH_AUTO_START) ∧
    (vsp1_dl_list_fill_header true exList0 false 0 true).header.flags
        = VSP1_DLH_INT_ENABLE ∧
    (commitPrepare exM0 exListChain false).chain[0]?
        = some (vsp1_dl_list_fill_header exM0.singleshot exList1 true
            exList2.dma false) ∧
    (commitPrepare exM0 exListChain false).chain[1]?
        = some (vsp1_dl_list_fill_header exM0.singleshot exList2 true
            exListChain.dma true) := by
  have h1 := fill_header_link_rule.1 false exList0 8448
  have h2 := fill_header_link_rule.2.1 exList0 false 0 true (Or.inr rfl)
  have h3 := fill_header_link_rule.2.2.1 exList0 false 0 true (Or.inr rfl)
  have h4 := fill_header_link_rule.2.2.2 exM0 exListChain false rfl
  have hc0 := h4.2 0 exList1 rfl
  have hc1 := h4.2 1 exList2 rfl
  exact ⟨h1.1, h1.2, h2.2, h3.1, hc0, hc1⟩

/-- Counterexample to C5 as stated: putting a reference to a list that is
already in the free pool is not a no-op — the list is appended to the
free pool a second time, so the pool is duplicated and the manager state
changes. -/
theorem put_already_released_counterexample :
    exList0 ∈ exM0.free ∧
    (vsp1_dl_list_put exM0 (some exList0)).free.length = 2 ∧
    exM0.free.length = 1 ∧
    vsp1_dl_list_put exM0 (some exList0) ≠ exM0 := by
  have hput : vsp1_dl_list_put exM0 (some exList0)
      = vsp1_dl_list_put_locked exM0 (some exList0) := rfl
  have hadds : putFreeAdds (some exList0) = [resetList exList0] := by
    rw [putFreeAdds]
    rw [if_neg (by decide)]
    simp
  have hlen : (vsp1_dl_list_put exM0 (some exList0)).free.length = 2 := by
    rw [hput, put_locked_spec]
    simp [hadds]
    rfl
  refine ⟨?_, hlen, rfl, ?_⟩
  · exact (show exList0 ∈ [exList0] by simp)
  · intro heq
    have : (2 : Nat) = 1 := by
      rw [← hlen, heq]
      rfl
    simp at this

/-- C5 amended: put(list) is a no-op when passed a null reference, but
putting an already-released list is not guarded against: the list is
appended (in its reset state) to the free pool once more, growing the
pool instead of leaving it unchanged. -/
theorem put_null_noop_rerelease_appends :
    (∀ dlm, vsp1_dl_list_put dlm none = dlm) ∧
    (∀ dlm (dl : vsp1_dl_list), dl ∈ dlm.free →
      dlm.free.length < (vsp1_dl_list_put dlm (some dl)).free.length ∧
      resetList dl ∈ (vsp1_dl_list_put dlm (some dl)).free) := by
  constructor
  · intro dlm
    rfl
  · intro dlm dl hmem
    have hput : vsp1_dl_list_put dlm (some dl)
        = vsp1_dl_list_put_locked dlm (some dl) := rfl
    rw [hput, put_locked_spec]
    constructor
    · have hpos : 0 < (putFreeAdds (some dl)).length := by
        rw [putFreeAdds]
        simp
      simp only [List.length_append]
      omega
    · simp [putFreeAdds_some_mem]

/-- Witness for the amended C5: the null put leaves the example manager
unchanged, and re-putting the already-free exList0 re-adds it. -/
theorem put_null_noop_rerelease_appends_witness :
    vsp1_dl_list_put exM1 none = exM1 ∧
    exList0 ∈ exM0.free ∧
    resetList exList0 ∈ (vsp1_dl_list_put exM0 (some exList0)).free := by
  have hmem : exList0 ∈ exM0.free := by
    exact (show exList0 ∈ [exList0] by simp)
  exact ⟨put_null_noop_rerelease_appends.1 exM1, hmem,
    (put_null_noop_rerelease_appends.2 exM0 exList0 hmem).2⟩

theorem listReset_resetList (dl : vsp1_dl_list) : listReset (resetList dl) := by
  refine ⟨rfl, rfl, rfl⟩

mutual

theorem putFreeAdds_reset (o : Option vsp1_dl_list) :
    ∀ x ∈ putFreeAdds o, listReset x := by
  match o with
  | none =>
      intro x hx
      rw [putFreeAdds] at hx
      simp at hx
  | some dl =>
      intro x hx
      rw [putFreeAdds] at hx
      rcases List.mem_append.mp hx with h1 | h2
      · rcases Bool.eq_false_or_eq_true dl.has_chain with hc | hc
        · rw [hc] at h1
          simp only [if_true] at h1
          exact chainFreeAdds_reset dl.chain x h1
        · rw [hc] at h1
          simp at h1
      · simp at h2
        rw [h2]
        exact listReset_resetList dl
termination_by sizeOf o
decreasing_by
  cases dl
  simp [vsp1_dl_list.chain]
  omega

theorem chainFreeAdds_reset (cs : List vsp1_dl_list) :
    ∀ x ∈ chainFreeAdds cs, listReset x := by
  match cs with
  | [] =>
      intro x hx
      rw [chainFreeAdds] at hx
      simp at hx
  | c :: rest =>
      intro x hx
      rw [chainFreeAdds] at hx
      rcases List.mem_append.mp hx with h1 | h2
      · exact putFreeAdds_reset (some c) x h1
      · exact chainFreeAdds_reset rest x h2
termination_by sizeOf cs
decreasing_by
  all_goals have hpos : 0 < sizeOf rest := by cases rest <;> simp_arith
  all_goals simp
  all_goals omega

end

theorem freeInv_put_locked (dlm : vsp1_dl_manager) (o : Option vsp1_dl_list)
    (h : freeInv dlm) : freeInv (vsp1_dl_list_put_locked dlm o) := by
  rw [put_locked_spec]
  intro dl hdl
  rcases List.mem_append.mp hdl with h1 | h2
  · exact h dl h1
  · exact putFreeAdds_reset o dl h2

theorem listReset_alloc (mode : vsp1_dl_mode) (bodyDma : Nat) :
    listReset (vsp1_dl_list_alloc mode bodyDma) := by
  rw [vsp1_dl_list_alloc]
  by_cases hm : mode = vsp1_dl_mode.HEADER
  · rw [if_pos hm]
    exact ⟨rfl, rfl, rfl⟩
  · rw [if_neg hm]
    exact ⟨rfl, rfl, rfl⟩

/-- C7: every list in the free pool is recycled (primary entry count
zero, no fragments, chain flag false): the invariant holds at manager
creation and is preserved by put, get, commit, the frame-end interrupt
and reset; hence every non-null list returned by get is recycled (with
its chain node additionally re-initialised).  Moreover put(x) itself
appends x in reset form to the pool and moves all fragments of x to the
deferred-free list. -/
theorem free_pool_recycled_invariant :
    (∀ (index : Nat) (uapi : Bool) (prealloc : Nat) (bodyDmas : Nat → Nat),
      freeInv (vsp1_dlm_create index uapi prealloc bodyDmas)) ∧
    (∀ dlm dl, freeInv dlm → freeInv (vsp1_dl_list_put dlm dl)) ∧
    (∀ dlm (dl : vsp1_dl_list),
      resetList dl ∈ (vsp1_dl_list_put dlm (some dl)).free ∧
      (∀ b, b ∈ dl.fragments →
        b ∈ (vsp1_dl_list_put dlm (some dl)).gc_fragments)) ∧
    (∀ dlm, freeInv dlm →
      freeInv (vsp1_dl_list_get dlm).2 ∧
      (∀ dl, (vsp1_dl_list_get dlm).1 = some dl →
        dl.body0.num_entries = 0 ∧ dl.fragments = [] ∧ dl.has_chain = false ∧
        dl.chain = [])) ∧
    (∀ dlm updBit dl internal, freeInv dlm →
      freeInv (vsp1_dl_list_commit dlm updBit dl internal).1) ∧
    (∀ dlm updBit, freeInv dlm → freeInv (vsp1_dlm_irq_frame_end dlm updBit).1) ∧
    (∀ dlm, freeInv dlm → freeInv (vsp1_dlm_reset dlm)) := by
  refine ⟨?_, ?_, ?_, ?_, ?_, ?_, ?_⟩
  · intro index uapi prealloc bodyDmas dl hdl
    simp only [vsp1_dlm_create, List.mem_map] at hdl
    obtain ⟨i, _, rfl⟩ := hdl
    exact listReset_alloc _ _
  · intro dlm dl h
    match dl with
    | none => exact h
    | some dl => exact freeInv_put_locked dlm (some dl) h
  · intro dlm dl
    have hput : vsp1_dl_list_put dlm (some dl)
        = vsp1_dl_list_put_locked dlm (some dl) := rfl
    rw [hput, put_locked_spec]
    constructor
    · simp [putFreeAdds_some_mem]
    · intro b hb
      have : b ∈ putGcAdds (some dl) := by
        rw [putGcAdds]
        exact List.mem_append.mpr (Or.inl hb)
      simp only [List.mem_append]
      exact Or.inl this
  · intro dlm h
    cases hf : dlm.free with
    | nil =>
        have hg : vsp1_dl_list_get dlm = (none, dlm) := by
          simp [vsp1_dl_list_get, hf]
        rw [hg]
        refine ⟨h, ?_⟩
        intro dl hdl
        simp at hdl
    | cons d rest =>
        have hg : vsp1_dl_list_get dlm =
            (some (.mk d.dma d.header d.body0 d.fragments d.has_chain
              [] d.internal), { dlm with free := rest }) := by
          simp [vsp1_dl_list_get, hf]
        rw [hg]
        constructor
        · intro dl hdl
          exact h dl (by rw [hf]; exact List.mem_cons_of_mem d hdl)
        · intro dl hdl
          simp only [Option.some_inj] at hdl
          subst hdl
          have hd := h d (by rw [hf]; exact List.mem_cons_self d rest)
          exact ⟨hd.1, hd.2.1, hd.2.2, rfl⟩
  · intro dlm updBit dl internal h
    rcases Bool.eq_false_or_eq_true dlm.singleshot with hss | hss
    · have hr : (vsp1_dl_list_commit dlm updBit dl internal).1 =
          { dlm with active := some (commitPrepare dlm dl internal) } := by
        simp [vsp1_dl_list_commit, hss, vsp1_dl_list_commit_singleshot]
      rw [hr]
      intro x hx
      exact h x hx
    · rcases Bool.eq_false_or_eq_true
          (vsp1_dl_list_hw_update_pending dlm updBit) with hupd | hupd
      · have hr : (vsp1_dl_list_commit dlm updBit dl internal).1 =
            { vsp1_dl_list_put_locked dlm dlm.pending with
                pending := some (commitPrepare dlm dl internal) } := by
          simp [vsp1_dl_list_commit, hss, vsp1_dl_list_commit_continuous, hupd]
        rw [hr]
        intro x hx
        exact freeInv_put_locked dlm dlm.pending h x hx
      · have hr : (vsp1_dl_list_commit dlm updBit dl internal).1 =
            { vsp1_dl_list_put_locked dlm dlm.queued with
                queued := some (commitPrepare dlm dl internal) } := by
          simp [vsp1_dl_list_commit, hss, vsp1_dl_list_commit_continuous, hupd]
        rw [hr]
        intro x hx
        exact freeInv_put_locked dlm dlm.queued h x hx
  · intro dlm updBit h
    rcases Bool.eq_false_or_eq_true dlm.singleshot with hss | hss
    · have hr : (vsp1_dlm_irq_frame_end dlm updBit).1 =
          { vsp1_dl_list_put_locked dlm dlm.active with active := none } := by
        simp [vsp1_dlm_irq_frame_end, hss]
      rw [hr]
      intro x hx
      exact freeInv_put_locked dlm dlm.active h x hx
    · rcases Bool.eq_false_or_eq_true
          (vsp1_dl_list_hw_update_pending dlm updBit) with hupd | hupd
      · have hr : (vsp1_dlm_irq_frame_end dlm updBit).1 = dlm := by
          simp [vsp1_dlm_irq_frame_end, hss, hupd]
        rw [hr]
        exact h
      · cases hq : dlm.queued with
        | none =>
            cases hp : dlm.pending with
            | none =>
                have hr : (vsp1_dlm_irq_frame_end dlm updBit).1 = dlm := by
                  simp [vsp1_dlm_irq_frame_end, hss, hupd, hq, hp]
                rw [hr]
                exact h
            | some p =>
                have hr : (vsp1_dlm_irq_frame_end dlm updBit).1 =
                    { dlm with queued := some p, pending := none } := by
                  simp [vsp1_dlm_irq_frame_end, hss, hupd, hq, hp]
                rw [hr]
                intro x hx
                exact h x hx
        | some q =>
            cases hp : dlm.pending with
            | none =>
                have hr : (vsp1_dlm_irq_frame_end dlm updBit).1 =
                    { vsp1_dl_list_put_locked dlm dlm.active with
                        active := some (.mk q.dma q.header q.body0 q.fragments
                          q.has_chain q.chain false),
                        queued := none } := by
                  simp [vsp1_dlm_irq_frame_end, hss, hupd, hq, put_locked_spec, hp]
                rw [hr]
                intro x hx
                exact freeInv_put_locked dlm dlm.active h x hx
            | some p =>
                have hr : (vsp1_dlm_irq_frame_end dlm updBit).1 =
                    { vsp1_dl_list_put_locked dlm dlm.active with
                        active := some (.mk q.dma q.header q.body0 q.fragments
                          q.has_chain q.chain false),
                        queued := some p, pending := none } := by
                  simp [vsp1_dlm_irq_frame_end, hss, hupd, hq, put_locked_spec, hp]
                rw [hr]
                intro x hx
                exact freeInv_put_locked dlm dlm.active h x hx
  · intro dlm h
    simp only [vsp1_dlm_reset]
    intro x hx
    exact (freeInv_put_locked _ _ (freeInv_put_locked _ _
      (freeInv_put_locked dlm dlm.active h))) x hx

/-- Witness for C7 on the concrete managers: the invariant holds after
creation, after re-putting exList0, after a reset of the loaded manager,
and after a get. -/
theorem free_pool_recycled_invariant_witness :
    freeInv exM0 ∧
    freeInv (vsp1_dl_list_put exM0 (some exList0)) ∧
    resetList exList0 ∈ (vsp1_dl_list_put exM0 (some exList0)).free ∧
    freeInv (vsp1_dlm_reset exM1) ∧
    freeInv (vsp1_dl_list_get exM0).2 := by
  have hinv : freeInv exM0 := free_pool_recycled_invariant.1 1 false 1 _
  have hinv1 : freeInv exM1 := fun dl hdl => hinv dl hdl
  exact ⟨hinv,
    free_pool_recycled_invariant.2.1 exM0 (some exList0) hinv,
    (free_pool_recycled_invariant.2.2.1 exM0 exList0).1,
    free_pool_recycled_invariant.2.2.2.2.2.2 exM1 hinv1,
    (free_pool_recycled_invariant.2.2.2.1 exM0 hinv).1⟩

end Vsp1
